import Mathlib

/-!
Verification development for the PostItApp synchronization core.

The TypeScript/React-Native source is shallowly embedded:

* numeric note fields (`createdAt`, `updatedAt`, `zIndex`, sizes, positions)
  are epoch-millisecond / logical-unit integers, modelled as `Nat` (`Int`
  for canvas coordinates, which may be negative mid-gesture);
* the JavaScript `Map` used by both merge implementations is modelled as an
  insertion-ordered association list, with `Map.set` replacing in place on
  an existing key and appending on a fresh key, and `Array.from(map.values())`
  reading the values in that order;
* external effects (`Date.now()`, the id generator, the Drive HTTP calls)
  are made explicit as arguments describing the outcome of each call, and
  write effects (which collection was uploaded, which notes were handed to
  `onPostItsUpdated`) are returned alongside the function's result;
* fallible external calls are `Except String` values (`Except.error` is a
  thrown/rejected promise carrying its message).
-/

/-! ## Data model (src/types: PostIt.ts, sync.ts) -/

inductive PostItColor
  | yellow
  | pink
  | blue
  | green
  | orange
  | purple
deriving DecidableEq, Repr

structure PostItSize where
  width : Int
  height : Int
deriving DecidableEq, Repr

structure PostItPosition where
  x : Int
  y : Int
deriving DecidableEq, Repr

structure PostIt where
  id : String
  text : String
  color : PostItColor
  size : PostItSize
  position : PostItPosition
  createdAt : Nat
  updatedAt : Nat
  zIndex : Nat
deriving DecidableEq, Repr

structure PostItState where
  postIts : List PostIt
  selectedId : Option String
  maxZIndex : Nat
deriving DecidableEq, Repr

/-! ## Note model constants and creation (src/constants/dimensions.ts, src/utils) -/

structure PostItDimensions where
  minWidth : Nat
  minHeight : Nat
  maxWidth : Nat
  maxHeight : Nat
  defaultWidth : Nat
  defaultHeight : Nat
  resizeHandleSize : Nat
  borderRadius : Nat
  padding : Nat
  shadowOffset : Nat
  shadowRadius : Nat
deriving DecidableEq, Repr

def POST_IT_DIMENSIONS : PostItDimensions :=
  { minWidth := 100
    minHeight := 100
    maxWidth := 400
    maxHeight := 400
    defaultWidth := 150
    defaultHeight := 150
    resizeHandleSize := 30
    borderRadius := 4
    padding := 12
    shadowOffset := 4
    shadowRadius := 8 }

/-- Embedding of `createPostIt` (src/utils). The source calls `generateId()`
and `Date.now()` internally; those two effects are passed explicitly as the
`id` and `now` arguments. `size || defaultSize` on an (always truthy) object
argument is the `Option.getD`-style match below. -/
def createPostIt (text : String) (color : PostItColor) (position : PostItPosition)
    (zIndex : Nat) (size : Option PostItSize) (id : String) (now : Nat) : PostIt :=
  { id := id
    text := text
    color := color
    size :=
      match size with
      | some s => s
      | none =>
          { width := (POST_IT_DIMENSIONS.defaultWidth : Int)
            height := (POST_IT_DIMENSIONS.defaultHeight : Int) }
    position := position
    createdAt := now
    updatedAt := now
    zIndex := zIndex }

/-! ## JavaScript Map model

Both merge implementations build a `Map<string, PostIt>`. A JS `Map`
preserves insertion order; `set` on an existing key overwrites the value in
place, `set` on a fresh key appends. -/

/-- JS `Map.set` on an insertion-ordered association list. -/
def mapSet : List (String × PostIt) → String → PostIt → List (String × PostIt)
  | [], k, v => [(k, v)]
  | e :: rest, k, v =>
      if e.1 = k then (k, v) :: rest else e :: mapSet rest k v

/-- JS `Map.get` (first — and, on a `Map`, only — entry with the key). -/
def lookupA : List (String × PostIt) → String → Option PostIt
  | [], _ => none
  | e :: rest, k => if e.1 = k then some e.2 else lookupA rest k

/-- Observation used by the claims: the note a collection holds for a given
id (JS `array.find(p => p.id === i)`). -/
def findById : List PostIt → String → Option PostIt
  | [], _ => none
  | p :: rest, i => if p.id = i then some p else findById rest i

/-! ## Merge Engine (GoogleDriveService.mergePostIts, src/services) -/

namespace GoogleDriveService

/-- Seeding pass of `mergePostIts`: `remote.forEach(p => map.set(p.id, p))`. -/
def seedStep (m : List (String × PostIt)) (p : PostIt) : List (String × PostIt) :=
  mapSet m p.id p

/-- Merging pass of `mergePostIts`: insert a local note when its id is absent
or when it is strictly newer than the remote note already in the map. -/
def mergeStep (m : List (String × PostIt)) (p : PostIt) : List (String × PostIt) :=
  match lookupA m p.id with
  | none => mapSet m p.id p
  | some remotePostIt =>
      if remotePostIt.updatedAt < p.updatedAt then mapSet m p.id p else m

/-- Embedding of `GoogleDriveService.mergePostIts(local, remote)`. -/
def mergePostIts (localPostIts remotePostIts : List PostIt) : List PostIt :=
  let seeded := remotePostIts.foldl seedStep []
  let merged := localPostIts.foldl mergeStep seeded
  merged.map Prod.snd

end GoogleDriveService

/-! ## Note-collection reducer (postItReducer, src/context) -/

/-- The `reduce((max, p) => Math.max(max, p.zIndex), 0)` computation the
reducer uses for LOAD_POSTITS and MERGE_POSTITS; also the specification-side
"true maximum zIndex (0 for the empty collection)". -/
def trueMaxZ (l : List PostIt) : Nat :=
  l.foldl (fun m p => max m p.zIndex) 0

inductive PostItAction
  | loadPostIts (payload : List PostIt)
  | addPostIt (payload : PostIt)
  | updatePostIt (payload : PostIt)
  | deletePostIt (payload : String)
  | selectPostIt (payload : Option String)
  | updatePosition (id : String) (position : PostItPosition)
  | updateSize (id : String) (size : PostItSize)
  | updateColor (id : String) (color : PostItColor)
  | updateText (id : String) (text : String)
  | bringToFront (payload : String)
  | setMaxZIndex (payload : Nat)
  | mergePostIts (payload : List PostIt)
deriving DecidableEq, Repr

/-- Incoming pass of the reducer's MERGE_POSTITS branch:
`if (!existing || incomingPostIt.updatedAt > existing.updatedAt) set`. -/
def reducerMergeStep (m : List (String × PostIt)) (p : PostIt) :
    List (String × PostIt) :=
  let existing := lookupA m p.id
  if Option.all (fun ex => decide (ex.updatedAt < p.updatedAt)) existing then
    mapSet m p.id p
  else m

/-- Embedding of `postItReducer`. The source's `Date.now()` calls (in the
UPDATE_* and BRING_TO_FRONT branches) are the explicit `now` argument. -/
def postItReducer (now : Nat) (state : PostItState) (action : PostItAction) :
    PostItState :=
  match action with
  | .loadPostIts payload =>
      let maxZ := payload.foldl (fun m p => max m p.zIndex) 0
      { state with postIts := payload, maxZIndex := maxZ }
  | .addPostIt payload =>
      { state with
          postIts := state.postIts ++ [payload]
          maxZIndex := payload.zIndex }
  | .updatePostIt payload =>
      { state with
          postIts := state.postIts.map fun p =>
            if p.id = payload.id then payload else p }
  | .deletePostIt payload =>
      { state with
          postIts := state.postIts.filter fun p => p.id ≠ payload
          selectedId :=
            if state.selectedId = some payload then none else state.selectedId }
  | .selectPostIt payload =>
      { state with selectedId := payload }
  | .updatePosition id position =>
      { state with
          postIts := state.postIts.map fun p =>
            if p.id = id then { p with position := position, updatedAt := now }
            else p }
  | .updateSize id size =>
      { state with
          postIts := state.postIts.map fun p =>
            if p.id = id then { p with size := size, updatedAt := now } else p }
  | .updateColor id color =>
      { state with
          postIts := state.postIts.map fun p =>
            if p.id = id then { p with color := color, updatedAt := now } else p }
  | .updateText id text =>
      { state with
          postIts := state.postIts.map fun p =>
            if p.id = id then { p with text := text, updatedAt := now } else p }
  | .bringToFront payload =>
      let newMaxZ := state.maxZIndex + 1
      { state with
          postIts := state.postIts.map fun p =>
            if p.id = payload then { p with zIndex := newMaxZ, updatedAt := now }
            else p
          maxZIndex := newMaxZ }
  | .setMaxZIndex payload =>
      { state with maxZIndex := payload }
  | .mergePostIts payload =>
      let seeded := state.postIts.foldl GoogleDriveService.seedStep []
      let merged := payload.foldl reducerMergeStep seeded
      let mergedPostIts := merged.map Prod.snd
      let mergedMaxZ := mergedPostIts.foldl (fun m p => max m p.zIndex) 0
      { state with postIts := mergedPostIts, maxZIndex := mergedMaxZ }

/-! ## Sync types (src/types/sync.ts) -/

inductive SyncStatus
  | idle
  | syncing
  | success
  | error
deriving DecidableEq, Repr

structure GoogleUser where
  id : String
  email : String
  name : String
  photo : Option String
deriving DecidableEq, Repr

structure SyncState where
  status : SyncStatus
  lastSyncAt : Option Nat
  isConnected : Bool
  user : Option GoogleUser
  autoSyncEnabled : Bool
  error : Option String
deriving DecidableEq, Repr

structure BackupData where
  postIts : List PostIt
  syncedAt : Nat
  deviceId : String
  version : String
deriving DecidableEq, Repr

/-- SyncResult; the optional `conflictsResolved?` field is an `Option`. -/
structure SyncResult where
  success : Bool
  message : String
  timestamp : Nat
  conflictsResolved : Option Nat := none
deriving DecidableEq, Repr

structure DriveFileMetadata where
  id : String
  name : String
  mimeType : String
  modifiedTime : String
  size : Option String
deriving DecidableEq, Repr

/-- Return type of `syncPostIts`: `SyncResult & \x7bpostIts?: PostIt[]\x7d`. -/
structure SyncPostItsResult extends SyncResult where
  postIts : Option (List PostIt) := none
deriving DecidableEq, Repr

namespace GoogleDriveService

/-- Embedding of `uploadBackup`. A run of the body is characterised by the
outcome of its external calls: `Except.ok existingFile` is a run in which
folder resolution, the file search and the upload request all succeeded
(`existingFile` says whether a backup file already existed, choosing the
PATCH-update or POST-create path and the success message); `Except.error msg`
is a run in which some awaited step threw, which the catch block converts to
a non-success result carrying the message. The uploaded collection `postIts`
only affects the remote state, not the returned result. -/
def uploadBackup (_postIts : List PostIt) (outcome : Except String Bool)
    (now : Nat) : SyncResult :=
  match outcome with
  | .ok existingFile =>
      { success := true
        message :=
          if existingFile then "Backup updated successfully"
          else "Backup created successfully"
        timestamp := now }
  | .error msg =>
      { success := false
        message := msg
        timestamp := now }

/-- Embedding of `downloadBackup`. A run is characterised by the outcomes of
`getOrCreateFolder` (a folder id, or a throw), `findBackupFile` (metadata of
the backup file when one exists, or a throw), and the media fetch of the
file's content (the parsed `BackupData`, or a throw — a non-ok response is
`Except.error "Failed to download backup"`). The catch block turns every
throw into `null`, so the embedding returns an `Option` with no error
channel at all. -/
def downloadBackup (folderOutcome : Except String String)
    (findOutcome : Except String (Option DriveFileMetadata))
    (fetchOutcome : Except String BackupData) : Option BackupData :=
  match folderOutcome with
  | .error _ => none
  | .ok _ =>
      match findOutcome with
      | .error _ => none
      | .ok none => none
      | .ok (some _) =>
          match fetchOutcome with
          | .error _ => none
          | .ok backupData => some backupData

/-- Result of a `syncPostIts` run together with its write effect: `uploaded`
is the collection passed to the single `uploadBackup` call the run makes. -/
structure SyncCall where
  result : SyncPostItsResult
  uploaded : List PostIt
deriving DecidableEq, Repr

/-- Embedding of `syncPostIts`. `remoteBackup` is the value returned by the
`downloadBackup` call (which never throws — every failure is already `null`
inside it), `uploadOutcome` drives the inner `uploadBackup` call (which also
never throws), and `now` is its `Date.now()`. -/
def syncPostIts (localPostIts : List PostIt) (remoteBackup : Option BackupData)
    (uploadOutcome : Except String Bool) (now : Nat) : SyncCall :=
  match remoteBackup with
  | none =>
      let uploadResult := uploadBackup localPostIts uploadOutcome now
      { result :=
          { success := uploadResult.success
            message := "Initial backup created"
            timestamp := uploadResult.timestamp
            conflictsResolved := uploadResult.conflictsResolved
            postIts := some localPostIts }
        uploaded := localPostIts }
  | some remoteData =>
      let mergedPostIts := mergePostIts localPostIts remoteData.postIts
      let conflictsResolved : Nat :=
        ((mergedPostIts.length : Int) -
          (max localPostIts.length remoteData.postIts.length : Int)).natAbs
      let uploadResult := uploadBackup mergedPostIts uploadOutcome now
      { result :=
          { success := uploadResult.success
            message :=
              "Sync completed. " ++ toString mergedPostIts.length ++
                " post-its synchronized."
            timestamp := uploadResult.timestamp
            conflictsResolved := some conflictsResolved
            postIts := some mergedPostIts }
        uploaded := mergedPostIts }

end GoogleDriveService

/-! ## Sync orchestrator (useGoogleDriveSync.syncNow, src/hooks) -/

/-- Orchestrator state the hook's `syncNow` reads and writes: the `SyncState`
React state plus the synchronous `isSyncingRef` guard flag. -/
structure HookState where
  syncState : SyncState
  isSyncing : Bool
deriving DecidableEq, Repr

/-- Result of one `syncNow` invocation: the returned `SyncResult`, the
orchestrator state after the invocation settles (before the 3-second
status-reset timeout fires), and the collection handed to `onPostItsUpdated`
when the merge result is applied (`none` when the callback is not invoked). -/
structure SyncNowOutput where
  result : SyncPostItsResult
  state : HookState
  updatedPostIts : Option (List PostIt)
deriving DecidableEq, Repr

/-- Embedding of the hook's `syncNow`. `remoteBackup` and `uploadOutcome`
drive the inner `GoogleDriveService.syncPostIts` call as above, `tService`
is that call's `Date.now()`, and `tSync` the hook's own `Date.now()` used
for the guard-result timestamp and for `newLastSync`. `syncPostIts` never
rejects in this embedding, so the hook's catch branch is unreachable. -/
def syncNow (h : HookState) (postIts : List PostIt)
    (remoteBackup : Option BackupData) (uploadOutcome : Except String Bool)
    (tService tSync : Nat) : SyncNowOutput :=
  if h.isSyncing || !h.syncState.isConnected then
    { result :=
        { success := false
          message :=
            if h.syncState.isConnected then "Sync already in progress"
            else "Not connected to Google"
          timestamp := tSync }
      state := h
      updatedPostIts := none }
  else
    let started : SyncState :=
      { h.syncState with status := SyncStatus.syncing, error := none }
    let call := GoogleDriveService.syncPostIts postIts remoteBackup uploadOutcome tService
    let result := call.result
    let updated : Option (List PostIt) :=
      if result.success && result.postIts.isSome then result.postIts else none
    let newLastSync := tSync
    let settled : SyncState :=
      { started with
          status := if result.success then SyncStatus.success else SyncStatus.error
          lastSyncAt := if result.success then some newLastSync else started.lastSyncAt
          error := if result.success then none else some result.message }
    { result := result
      state := { syncState := settled, isSyncing := false }
      updatedPostIts := updated }

/-! ## Specification-side predicates and concrete test inputs -/

/-- The spec's collection invariant on the tracked maximum: the state's
maxZIndex equals the true maximum zIndex over all notes (0 when empty). -/
def maxZInvariant (s : PostItState) : Prop :=
  s.maxZIndex = trueMaxZ s.postIts

instance (s : PostItState) : Decidable (maxZInvariant s) :=
  inferInstanceAs (Decidable (s.maxZIndex = trueMaxZ s.postIts))

/-- Conditions under which the reducer re-establishes or preserves the
maxZIndex invariant: LOAD_POSTITS and MERGE_POSTITS recompute it and need
nothing; the four field updates never touch any zIndex; ADD_POSTIT needs the
added note to sit at or above the current tracked maximum (which the
provider guarantees by allocating maxZIndex + 1); BRING_TO_FRONT needs its
target id to be present. DELETE_POSTIT, UPDATE_POSTIT, SELECT_POSTIT and
SET_MAX_ZINDEX are not covered. -/
def preservesMaxZ (s : PostItState) (a : PostItAction) : Prop :=
  match a with
  | .loadPostIts _ => True
  | .mergePostIts _ => True
  | .addPostIt p => maxZInvariant s ∧ s.maxZIndex ≤ p.zIndex
  | .updatePosition _ _ => maxZInvariant s
  | .updateSize _ _ => maxZInvariant s
  | .updateColor _ _ => maxZInvariant s
  | .updateText _ _ => maxZInvariant s
  | .bringToFront i => maxZInvariant s ∧ i ∈ s.postIts.map (fun p => p.id)
  | _ => False

/-- Concrete note builder for witnesses and counterexamples. -/
def mkNote (id : String) (updatedAt : Nat) (zIndex : Nat) : PostIt :=
  { id := id
    text := ""
    color := PostItColor.yellow
    size := { width := 150, height := 150 }
    position := { x := 0, y := 0 }
    createdAt := 0
    updatedAt := updatedAt
    zIndex := zIndex }

/-- Concrete backup-file metadata for counterexamples. -/
def mkFileMeta : DriveFileMetadata :=
  { id := "file1"
    name := "postit_backup.json"
    mimeType := "application/json"
    modifiedTime := "2024-01-01T00:00:00Z"
    size := some "100" }

/-- Concrete connected orchestrator state with a sync in flight. -/
def syncingConnectedHook : HookState :=
  { syncState :=
      { status := SyncStatus.syncing
        lastSyncAt := some 10
        isConnected := true
        user := none
        autoSyncEnabled := true
        error := none }
    isSyncing := true }

/-- Concrete connected, idle orchestrator state for witnesses. -/
def idleConnectedHook : HookState :=
  { syncState :=
      { status := SyncStatus.idle
        lastSyncAt := some 10
        isConnected := true
        user := none
        autoSyncEnabled := true
        error := none }
    isSyncing := false }

/-! ## Lemma kit: lookups through the map operations -/

/-- Pointwise effect of the seeding pass on the value stored for one id:
the last note with that id wins unconditionally. -/
def seedOpt (q : String) (c : Option PostIt) (p : PostIt) : Option PostIt :=
  if p.id = q then some p else c

/-- Pointwise effect of the merging pass on the value stored for one id:
a note with that id replaces the current holder only when strictly newer. -/
def updOpt (q : String) (c : Option PostIt) (p : PostIt) : Option PostIt :=
  if p.id = q then
    match c with
    | none => some p
    | some r => if r.updatedAt < p.updatedAt then some p else some r
  else c

/-- Invariant of both merge maps: every entry's key is its note's id. -/
def goodMap (m : List (String × PostIt)) : Prop :=
  ∀ e ∈ m, e.2.id = e.1

theorem lookupA_mapSet (m : List (String × PostIt)) (k : String) (v : PostIt)
    (q : String) :
    lookupA (mapSet m k v) q = if k = q then some v else lookupA m q := by
  induction m with
  | nil => simp [mapSet, lookupA]
  | cons e rest ih =>
      by_cases hek : e.1 = k
      · simp only [mapSet, if_pos hek, lookupA]
        by_cases hkq : k = q
        · simp [hkq]
        · have heq : ¬ e.1 = q := by rw [hek]; exact hkq
          simp [hkq, lookupA, heq]
      · simp only [mapSet, if_neg hek, lookupA]
        by_cases heq : e.1 = q
        · have hkq : ¬ k = q := fun h => hek (heq.trans h.symm)
          simp [heq, hkq]
        · simp [heq, ih]

/-- Transfer of a fold over map-building steps to a fold over per-id values. -/
theorem lookupA_foldl
    {step : List (String × PostIt) → PostIt → List (String × PostIt)}
    {fOpt : Option PostIt → PostIt → Option PostIt} (q : String)
    (hstep : ∀ m p, lookupA (step m p) q = fOpt (lookupA m q) p) :
    ∀ (l : List PostIt) (m : List (String × PostIt)),
      lookupA (l.foldl step m) q = l.foldl fOpt (lookupA m q)
  | [], _ => rfl
  | p :: rest, m => by
      simp only [List.foldl_cons]
      rw [lookupA_foldl q hstep rest (step m p), hstep]

theorem lookupA_seedStep (m : List (String × PostIt)) (p : PostIt) (q : String) :
    lookupA (GoogleDriveService.seedStep m p) q = seedOpt q (lookupA m q) p := by
  simp only [GoogleDriveService.seedStep, seedOpt, lookupA_mapSet]

theorem lookupA_mergeStep (m : List (String × PostIt)) (p : PostIt) (q : String) :
    lookupA (GoogleDriveService.mergeStep m p) q = updOpt q (lookupA m q) p := by
  simp only [GoogleDriveService.mergeStep, updOpt]
  by_cases h : p.id = q
  · subst h
    cases hc : lookupA m p.id with
    | none => simp [lookupA_mapSet, hc]
    | some r =>
        by_cases hu : r.updatedAt < p.updatedAt
        · simp [hu, lookupA_mapSet, hc]
        · simp [hu, hc]
  · cases hc : lookupA m p.id with
    | none => simp [h, lookupA_mapSet, hc]
    | some r =>
        by_cases hu : r.updatedAt < p.updatedAt
        · simp [hu, h, lookupA_mapSet, hc]
        · simp [hu, h, hc]

theorem goodMap_nil : goodMap [] := by
  intro e he
  cases he

theorem goodMap_mapSet {m : List (String × PostIt)} {k : String} {v : PostIt}
    (hm : goodMap m) (hv : v.id = k) : goodMap (mapSet m k v) := by
  induction m with
  | nil =>
      intro e he
      simp only [mapSet, List.mem_singleton] at he
      simp [he, hv]
  | cons x rest ih =>
      intro e he
      simp only [mapSet] at he
      by_cases hx : x.1 = k
      · rw [if_pos hx] at he
        rcases List.mem_cons.mp he with h1 | h2
        · simp [h1, hv]
        · exact hm e (List.mem_cons_of_mem _ h2)
      · rw [if_neg hx] at he
        rcases List.mem_cons.mp he with h1 | h2
        · exact hm e (h1 ▸ List.mem_cons_self _ _)
        · exact ih (fun e' he' => hm e' (List.mem_cons_of_mem _ he')) e h2

theorem goodMap_seedFold (l : List PostIt) :
    ∀ {m : List (String × PostIt)}, goodMap m →
      goodMap (l.foldl GoogleDriveService.seedStep m) := by
  induction l with
  | nil => intro m hm; exact hm
  | cons p rest ih =>
      intro m hm
      exact ih (goodMap_mapSet hm rfl)

theorem goodMap_mergeFold (l : List PostIt) :
    ∀ {m : List (String × PostIt)}, goodMap m →
      goodMap (l.foldl GoogleDriveService.mergeStep m) := by
  induction l with
  | nil => intro m hm; exact hm
  | cons p rest ih =>
      intro m hm
      apply ih
      simp only [GoogleDriveService.mergeStep]
      cases lookupA m p.id with
      | none => exact goodMap_mapSet hm rfl
      | some r =>
          by_cases hu : r.updatedAt < p.updatedAt
          · simpa [hu] using goodMap_mapSet hm rfl
          · simpa [hu] using hm

theorem findById_map_snd {m : List (String × PostIt)} (hm : goodMap m)
    (q : String) : findById (m.map Prod.snd) q = lookupA m q := by
  induction m with
  | nil => rfl
  | cons e rest ih =>
      have he : e.2.id = e.1 := hm e (List.mem_cons_self _ _)
      simp only [List.map_cons, findById, lookupA, he]
      by_cases h : e.1 = q
      · simp [h]
      · simp [h, ih (fun e' he' => hm e' (List.mem_cons_of_mem _ he'))]

/-! ## Lemma kit: keys of the map stay duplicate-free -/

theorem mem_keys_mapSet {m : List (String × PostIt)} {k a : String} {v : PostIt} :
    a ∈ (mapSet m k v).map Prod.fst ↔ a ∈ m.map Prod.fst ∨ a = k := by
  induction m with
  | nil => simp [mapSet]
  | cons e rest ih =>
      by_cases hx : e.1 = k
      · simp only [mapSet]
        rw [if_pos hx]
        simp only [List.map_cons, List.mem_cons, hx]
        tauto
      · simp only [mapSet]
        rw [if_neg hx]
        simp only [List.map_cons, List.mem_cons, ih]
        tauto

theorem keysNodup_mapSet {m : List (String × PostIt)} {k : String} {v : PostIt}
    (hm : (m.map Prod.fst).Nodup) : ((mapSet m k v).map Prod.fst).Nodup := by
  induction m with
  | nil => simp [mapSet]
  | cons e rest ih =>
      simp only [List.map_cons, List.nodup_cons] at hm
      by_cases hx : e.1 = k
      · simp only [mapSet, if_pos hx, List.map_cons, List.nodup_cons]
        exact ⟨hx ▸ hm.1, hm.2⟩
      · simp only [mapSet, if_neg hx, List.map_cons, List.nodup_cons]
        refine ⟨fun hmem => ?_, ih hm.2⟩
        rcases mem_keys_mapSet.mp hmem with h | h
        · exact hm.1 h
        · exact hx h

theorem keysNodup_seedFold (l : List PostIt) :
    ∀ {m : List (String × PostIt)}, (m.map Prod.fst).Nodup →
      ((l.foldl GoogleDriveService.seedStep m).map Prod.fst).Nodup := by
  induction l with
  | nil => intro m hm; exact hm
  | cons p rest ih =>
      intro m hm
      exact ih (keysNodup_mapSet hm)

theorem keysNodup_mergeFold (l : List PostIt) :
    ∀ {m : List (String × PostIt)}, (m.map Prod.fst).Nodup →
      ((l.foldl GoogleDriveService.mergeStep m).map Prod.fst).Nodup := by
  induction l with
  | nil => intro m hm; exact hm
  | cons p rest ih =>
      intro m hm
      apply ih
      simp only [GoogleDriveService.mergeStep]
      cases lookupA m p.id with
      | none => exact keysNodup_mapSet hm
      | some r =>
          by_cases hu : r.updatedAt < p.updatedAt
          · simpa [hu] using keysNodup_mapSet hm
          · simpa [hu] using hm

theorem map_snd_id_eq_keys {m : List (String × PostIt)} (hm : goodMap m) :
    (m.map Prod.snd).map (fun p => p.id) = m.map Prod.fst := by
  induction m with
  | nil => rfl
  | cons e rest ih =>
      simp only [List.map_cons]
      refine congrArg₂ _ (hm e (List.mem_cons_self _ _)) ?_
      exact ih fun e' he' => hm e' (List.mem_cons_of_mem _ he')

/-! ## Lemma kit: evaluating the per-id folds against findById -/

theorem findById_eq_none_iff (l : List PostIt) (q : String) :
    findById l q = none ↔ ∀ p ∈ l, ¬ p.id = q := by
  induction l with
  | nil => simp [findById]
  | cons x rest ih =>
      by_cases hx : x.id = q
      · simp [findById, hx]
      · simp [findById, hx, ih]

theorem foldl_opt_of_no_match {fOpt : Option PostIt → PostIt → Option PostIt}
    {q : String} (hskip : ∀ c p, ¬ p.id = q → fOpt c p = c) :
    ∀ (l : List PostIt), (∀ p ∈ l, ¬ p.id = q) → ∀ c, l.foldl fOpt c = c
  | [], _, _ => rfl
  | x :: rest, h, c => by
      simp only [List.foldl_cons]
      rw [hskip c x (h x (List.mem_cons_self _ _))]
      exact foldl_opt_of_no_match hskip rest
        (fun p hp => h p (List.mem_cons_of_mem _ hp)) c

theorem foldl_opt_of_find {fOpt : Option PostIt → PostIt → Option PostIt}
    {q : String} (hskip : ∀ c p, ¬ p.id = q → fOpt c p = c) :
    ∀ (l : List PostIt), (l.map (fun p => p.id)).Nodup →
      ∀ {p : PostIt}, findById l q = some p → ∀ c, l.foldl fOpt c = fOpt c p := by
  intro l
  induction l with
  | nil => intro _ p hp; cases hp
  | cons x rest ih =>
      intro hnd p hp c
      simp only [List.map_cons, List.nodup_cons] at hnd
      by_cases hx : x.id = q
      · simp only [findById, if_pos hx, Option.some.injEq] at hp
        subst hp
        simp only [List.foldl_cons]
        refine foldl_opt_of_no_match hskip rest (fun p' hp' hq => ?_) _
        exact hnd.1 (List.mem_map.mpr ⟨p', hp', by rw [hq, hx]⟩)
      · simp only [findById, if_neg hx] at hp
        simp only [List.foldl_cons, hskip c x hx]
        exact ih hnd.2 hp c

/-! ## Master lemmas about mergePostIts -/

theorem seedOpt_skip {q : String} : ∀ (c : Option PostIt) (p : PostIt),
    ¬ p.id = q → seedOpt q c p = c := by
  intro c p h
  simp [seedOpt, h]

theorem updOpt_skip {q : String} : ∀ (c : Option PostIt) (p : PostIt),
    ¬ p.id = q → updOpt q c p = c := by
  intro c p h
  simp [updOpt, h]

/-- What mergePostIts stores for each id, as a fold over the per-id effects
of the two passes. -/
theorem mergePostIts_findById (A B : List PostIt) (q : String) :
    findById (GoogleDriveService.mergePostIts A B) q =
      A.foldl (updOpt q) (B.foldl (seedOpt q) none) := by
  have hgood : goodMap (A.foldl GoogleDriveService.mergeStep
      (B.foldl GoogleDriveService.seedStep [])) :=
    goodMap_mergeFold A (goodMap_seedFold B goodMap_nil)
  have h1 := findById_map_snd hgood q
  have h2 := lookupA_foldl q (fun m p => lookupA_mergeStep m p q) A
    (B.foldl GoogleDriveService.seedStep [])
  have h3 := lookupA_foldl q (fun m p => lookupA_seedStep m p q) B []
  simp only [GoogleDriveService.mergePostIts]
  rw [h1, h2, h3]
  rfl

theorem mergePostIts_ids_nodup (A B : List PostIt) :
    ((GoogleDriveService.mergePostIts A B).map (fun p => p.id)).Nodup := by
  have hgood : goodMap (A.foldl GoogleDriveService.mergeStep
      (B.foldl GoogleDriveService.seedStep [])) :=
    goodMap_mergeFold A (goodMap_seedFold B goodMap_nil)
  simp only [GoogleDriveService.mergePostIts]
  rw [map_snd_id_eq_keys hgood]
  exact keysNodup_mergeFold A (keysNodup_seedFold B (by simp))

theorem findById_some_id : ∀ (l : List PostIt) (q : String) (p : PostIt),
    findById l q = some p → p.id = q
  | [], _, _, h => by cases h
  | x :: rest, q, p, h => by
      by_cases hx : x.id = q
      · simp only [findById, if_pos hx, Option.some.injEq] at h
        exact h ▸ hx
      · simp only [findById, if_neg hx] at h
        exact findById_some_id rest q p h

/-- Value of the seeding fold for one id, under unique remote ids. -/
theorem seed_fold_eval (B : List PostIt) (q : String)
    (hB : (B.map (fun p => p.id)).Nodup) :
    B.foldl (seedOpt q) none = findById B q := by
  cases hfind : findById B q with
  | none =>
      exact foldl_opt_of_no_match seedOpt_skip B
        ((findById_eq_none_iff B q).mp hfind) none
  | some r =>
      rw [foldl_opt_of_find seedOpt_skip B hB hfind none]
      simp [seedOpt, findById_some_id B q r hfind]

/-- Per-id description of the merge under unique ids on both sides: remote
wins ties and when newer, local wins when strictly newer, one-sided ids
survive. -/
theorem mergePostIts_keyed (A B : List PostIt)
    (hA : (A.map (fun p => p.id)).Nodup) (hB : (B.map (fun p => p.id)).Nodup)
    (q : String) :
    findById (GoogleDriveService.mergePostIts A B) q =
      match findById A q, findById B q with
      | none, none => none
      | some l, none => some l
      | none, some r => some r
      | some l, some r =>
          if r.updatedAt < l.updatedAt then some l else some r := by
  rw [mergePostIts_findById, seed_fold_eval B q hB]
  cases hfA : findById A q with
  | none =>
      rw [foldl_opt_of_no_match updOpt_skip A
        ((findById_eq_none_iff A q).mp hfA) _]
      cases hfB : findById B q <;> rfl
  | some l =>
      rw [foldl_opt_of_find updOpt_skip A hA hfA _]
      have hl : l.id = q := findById_some_id A q l hfA
      cases hfB : findById B q with
      | none => simp [updOpt, hl]
      | some r => simp [updOpt, hl]

/-! ## Claim C1 -/

/-- C1: For every pair of note lists local and remote (with unique ids
within each, the spec's collection invariant), mergePostIts(local, remote)
maps each id to exactly one note: an id present only in remote yields the
remote note; an id present only in local yields the local note; an id
present in both yields the local note exactly when
local.updatedAt > remote.updatedAt, and the remote note otherwise (remote
wins ties and when remote is newer). -/
theorem merge_maps_each_id_c1 (A B : List PostIt)
    (hA : (A.map (fun p => p.id)).Nodup) (hB : (B.map (fun p => p.id)).Nodup)
    (q : String) :
    ((GoogleDriveService.mergePostIts A B).map (fun p => p.id)).Nodup ∧
    findById (GoogleDriveService.mergePostIts A B) q =
      match findById A q, findById B q with
      | none, none => none
      | some l, none => some l
      | none, some r => some r
      | some l, some r =>
          if r.updatedAt < l.updatedAt then some l else some r :=
  ⟨mergePostIts_ids_nodup A B, mergePostIts_keyed A B hA hB q⟩

/-- C1 witness: concrete two-note local list against a one-note remote list,
looked up at the contested id. -/
theorem merge_maps_each_id_c1_witness :
    (([mkNote "a" 100 1, mkNote "b" 50 1].map (fun p => p.id)).Nodup ∧
      ([mkNote "a" 200 2].map (fun p => p.id)).Nodup) ∧
    (((GoogleDriveService.mergePostIts [mkNote "a" 100 1, mkNote "b" 50 1]
        [mkNote "a" 200 2]).map (fun p => p.id)).Nodup ∧
      findById (GoogleDriveService.mergePostIts
          [mkNote "a" 100 1, mkNote "b" 50 1] [mkNote "a" 200 2]) "a" =
        match findById [mkNote "a" 100 1, mkNote "b" 50 1] "a",
            findById [mkNote "a" 200 2] "a" with
        | none, none => none
        | some l, none => some l
        | none, some r => some r
        | some l, some r =>
            if r.updatedAt < l.updatedAt then some l else some r) :=
  ⟨⟨by decide, by decide⟩,
    merge_maps_each_id_c1 [mkNote "a" 100 1, mkNote "b" 50 1]
      [mkNote "a" 200 2] (by decide) (by decide) "a"⟩

/-! ## Claim C7: idempotence machinery -/

theorem updOpt_eval_none {q : String} (p : PostIt) (h : p.id = q) :
    updOpt q none p = some p := by
  simp [updOpt, h]

theorem updOpt_eval_some {q : String} (r p : PostIt) (h : p.id = q) :
    updOpt q (some r) p =
      if r.updatedAt < p.updatedAt then some p else some r := by
  simp [updOpt, h]

theorem upd_fold_none {q : String} : ∀ (A : List PostIt) (c : Option PostIt),
    A.foldl (updOpt q) c = none → c = none
  | [], _, h => h
  | a :: rest, c, h => by
      simp only [List.foldl_cons] at h
      have hrec := upd_fold_none rest _ h
      by_cases ha : a.id = q
      · cases c with
        | none => rfl
        | some r =>
            rw [updOpt_eval_some r a ha] at hrec
            by_cases hu : r.updatedAt < a.updatedAt
            · rw [if_pos hu] at hrec
              cases hrec
            · rw [if_neg hu] at hrec
              cases hrec
      · rwa [updOpt_skip c a ha] at hrec

theorem upd_fold_some_id {q : String} : ∀ (A : List PostIt) (c : Option PostIt),
    (∀ r, c = some r → r.id = q) → ∀ p, A.foldl (updOpt q) c = some p → p.id = q
  | [], _, hc, p, h => hc p h
  | a :: rest, c, hc, p, h => by
      simp only [List.foldl_cons] at h
      refine upd_fold_some_id rest _ ?_ p h
      intro r hr
      by_cases ha : a.id = q
      · cases c with
        | none =>
            rw [updOpt_eval_none a ha] at hr
            simp only [Option.some.injEq] at hr
            exact hr ▸ ha
        | some r0 =>
            rw [updOpt_eval_some r0 a ha] at hr
            by_cases hu : r0.updatedAt < a.updatedAt
            · rw [if_pos hu] at hr
              simp only [Option.some.injEq] at hr
              exact hr ▸ ha
            · rw [if_neg hu] at hr
              simp only [Option.some.injEq] at hr
              exact hr ▸ hc r0 rfl
      · rw [updOpt_skip c a ha] at hr
        exact hc r hr

theorem seed_fold_some_id {q : String} : ∀ (B : List PostIt) (c : Option PostIt),
    (∀ r, c = some r → r.id = q) → ∀ p, B.foldl (seedOpt q) c = some p → p.id = q
  | [], _, hc, p, h => hc p h
  | b :: rest, c, hc, p, h => by
      simp only [List.foldl_cons] at h
      refine seed_fold_some_id rest _ ?_ p h
      intro r hr
      by_cases hb : b.id = q
      · simp only [seedOpt, if_pos hb, Option.some.injEq] at hr
        exact hr ▸ hb
      · rw [seedOpt_skip c b hb] at hr
        exact hc r hr

theorem upd_fold_newer {q : String} : ∀ (A : List PostIt) (r p : PostIt),
    A.foldl (updOpt q) (some r) = some p → p = r ∨ r.updatedAt < p.updatedAt
  | [], r, p, h => by
      simp only [List.foldl_nil, Option.some.injEq] at h
      exact Or.inl h.symm
  | a :: rest, r, p, h => by
      simp only [List.foldl_cons] at h
      by_cases ha : a.id = q
      · rw [updOpt_eval_some r a ha] at h
        by_cases hu : r.updatedAt < a.updatedAt
        · rw [if_pos hu] at h
          rcases upd_fold_newer rest a p h with h1 | h2
          · exact Or.inr (h1 ▸ hu)
          · exact Or.inr (hu.trans h2)
        · rw [if_neg hu] at h
          exact upd_fold_newer rest r p h
      · rw [updOpt_skip _ a ha] at h
        exact upd_fold_newer rest r p h

/-! ## Claim C7 -/

/-- C7: Merging is idempotent with respect to the remote argument: for all
note lists A and B, merge(merge(A,B), B) holds exactly the same note as
merge(A,B) for every id (equality as collections keyed by id). -/
theorem merge_idempotent_c7 (A B : List PostIt) (q : String) :
    findById (GoogleDriveService.mergePostIts
        (GoogleDriveService.mergePostIts A B) B) q =
      findById (GoogleDriveService.mergePostIts A B) q := by
  have hXnodup := mergePostIts_ids_nodup A B
  rw [mergePostIts_findById (GoogleDriveService.mergePostIts A B) B]
  cases hx : findById (GoogleDriveService.mergePostIts A B) q with
  | none =>
      rw [foldl_opt_of_no_match updOpt_skip _
        ((findById_eq_none_iff _ q).mp hx) _]
      rw [mergePostIts_findById A B] at hx
      exact (upd_fold_none A _ hx)
  | some p =>
      rw [foldl_opt_of_find updOpt_skip _ hXnodup hx _]
      have hpid : p.id = q := findById_some_id _ q p hx
      cases hb : B.foldl (seedOpt q) none with
      | none => simp [updOpt, hpid]
      | some r =>
          rw [mergePostIts_findById A B, hb] at hx
          simp only [updOpt, if_pos hpid]
          by_cases hu : r.updatedAt < p.updatedAt
          · rw [if_pos hu]
          · rw [if_neg hu]
            rcases upd_fold_newer A r p hx with h1 | h2
            · rw [h1]
            · exact absurd h2 hu

/-! ## Claim C8: disjoint merges append -/

theorem lookupA_eq_none_iff (m : List (String × PostIt)) (k : String) :
    lookupA m k = none ↔ ∀ e ∈ m, ¬ e.1 = k := by
  induction m with
  | nil => simp [lookupA]
  | cons e rest ih =>
      by_cases he : e.1 = k
      · simp [lookupA, he]
      · simp [lookupA, he, ih]

theorem mapSet_append {m : List (String × PostIt)} {k : String} {v : PostIt}
    (h : ∀ e ∈ m, ¬ e.1 = k) : mapSet m k v = m ++ [(k, v)] := by
  induction m with
  | nil => rfl
  | cons e rest ih =>
      have he : ¬ e.1 = k := h e (List.mem_cons_self _ _)
      simp only [mapSet, if_neg he, List.cons_append]
      exact congrArg _ (ih fun e' he' => h e' (List.mem_cons_of_mem _ he'))

theorem seedFold_append : ∀ (B : List PostIt) (m0 : List (String × PostIt)),
    (∀ p ∈ B, ∀ e ∈ m0, ¬ e.1 = p.id) → (B.map (fun p => p.id)).Nodup →
      B.foldl GoogleDriveService.seedStep m0 = m0 ++ B.map fun p => (p.id, p)
  | [], m0, _, _ => by simp
  | p :: rest, m0, hdis, hnd => by
      simp only [List.map_cons, List.nodup_cons] at hnd
      simp only [List.foldl_cons, GoogleDriveService.seedStep]
      rw [mapSet_append (fun e he => hdis p (List.mem_cons_self _ _) e he)]
      rw [seedFold_append rest (m0 ++ [(p.id, p)]) ?_ hnd.2]
      · simp
      · intro p' hp' e he
        rcases List.mem_append.mp he with h1 | h2
        · exact hdis p' (List.mem_cons_of_mem _ hp') e h1
        · simp only [List.mem_singleton] at h2
          subst h2
          intro hcontra
          exact hnd.1 (List.mem_map.mpr ⟨p', hp', hcontra.symm⟩)

theorem mergeFold_append : ∀ (A : List PostIt) (m0 : List (String × PostIt)),
    (∀ p ∈ A, lookupA m0 p.id = none) → (A.map (fun p => p.id)).Nodup →
      A.foldl GoogleDriveService.mergeStep m0 = m0 ++ A.map fun p => (p.id, p)
  | [], m0, _, _ => by simp
  | p :: rest, m0, habs, hnd => by
      simp only [List.map_cons, List.nodup_cons] at hnd
      simp only [List.foldl_cons, GoogleDriveService.mergeStep]
      rw [habs p (List.mem_cons_self _ _)]
      rw [mapSet_append
        ((lookupA_eq_none_iff m0 p.id).mp (habs p (List.mem_cons_self _ _)))]
      rw [mergeFold_append rest (m0 ++ [(p.id, p)]) ?_ hnd.2]
      · simp
      · intro p' hp'
        refine (lookupA_eq_none_iff _ _).mpr fun e he => ?_
        rcases List.mem_append.mp he with h1 | h2
        · exact (lookupA_eq_none_iff m0 _).mp
            (habs p' (List.mem_cons_of_mem _ hp')) e h1
        · simp only [List.mem_singleton] at h2
          subst h2
          intro hcontra
          exact hnd.1 (List.mem_map.mpr ⟨p', hp', hcontra.symm⟩)

/-- Merging two collections with disjoint ids appends them (remote part
first, in both parts the original order and the notes untouched). -/
theorem mergePostIts_disjoint_eq_append (A B : List PostIt)
    (hA : (A.map (fun p => p.id)).Nodup) (hB : (B.map (fun p => p.id)).Nodup)
    (hdisj : ∀ p ∈ A, ∀ r ∈ B, ¬ p.id = r.id) :
    GoogleDriveService.mergePostIts A B = B ++ A := by
  simp only [GoogleDriveService.mergePostIts]
  rw [seedFold_append B [] (by simp) hB]
  rw [List.nil_append]
  rw [mergeFold_append A (B.map fun p => (p.id, p)) ?_ hA]
  · have hid : ∀ (l : List PostIt), l.map (Prod.snd ∘ fun p => (p.id, p)) = l := by
      intro l
      induction l with
      | nil => rfl
      | cons x rest ih => simp [ih]
    simp only [List.map_append, List.map_map]
    rw [hid, hid]
  · intro p hp
    refine (lookupA_eq_none_iff _ _).mpr fun e he => ?_
    rcases List.mem_map.mp he with ⟨r, hr, hre⟩
    rw [← hre]
    intro hcontra
    exact hdisj p hp r hr hcontra.symm

/-- C8: For all note lists A and B with unique ids within each (the spec's
collection invariant) and disjoint id sets, merge(A,B) has cardinality
length of A plus length of B, and every note of A and of B occurs in the
result with all of its fields unchanged. -/
theorem merge_disjoint_c8 (A B : List PostIt)
    (hA : (A.map (fun p => p.id)).Nodup) (hB : (B.map (fun p => p.id)).Nodup)
    (hdisj : ∀ p ∈ A, ∀ r ∈ B, ¬ p.id = r.id) :
    (GoogleDriveService.mergePostIts A B).length = A.length + B.length ∧
    (∀ p ∈ A, p ∈ GoogleDriveService.mergePostIts A B) ∧
    (∀ p ∈ B, p ∈ GoogleDriveService.mergePostIts A B) := by
  rw [mergePostIts_disjoint_eq_append A B hA hB hdisj]
  refine ⟨by simp [Nat.add_comm], fun p hp => ?_, fun p hp => ?_⟩
  · exact List.mem_append.mpr (Or.inr hp)
  · exact List.mem_append.mpr (Or.inl hp)

/-- C8 witness: two concrete one-note collections with distinct ids. -/
theorem merge_disjoint_c8_witness :
    (([mkNote "a" 1 1].map (fun p => p.id)).Nodup ∧
      ([mkNote "b" 2 2].map (fun p => p.id)).Nodup ∧
      (∀ p ∈ [mkNote "a" 1 1], ∀ r ∈ [mkNote "b" 2 2], ¬ p.id = r.id)) ∧
    ((GoogleDriveService.mergePostIts [mkNote "a" 1 1] [mkNote "b" 2 2]).length =
        [mkNote "a" 1 1].length + [mkNote "b" 2 2].length ∧
      (∀ p ∈ [mkNote "a" 1 1],
        p ∈ GoogleDriveService.mergePostIts [mkNote "a" 1 1] [mkNote "b" 2 2]) ∧
      (∀ p ∈ [mkNote "b" 2 2],
        p ∈ GoogleDriveService.mergePostIts [mkNote "a" 1 1] [mkNote "b" 2 2])) :=
  ⟨⟨by decide, by decide, by decide⟩,
    merge_disjoint_c8 [mkNote "a" 1 1] [mkNote "b" 2 2]
      (by decide) (by decide) (by decide)⟩

/-! ## Claim C10: the two merge implementations agree -/

theorem reducerMergeStep_eq_mergeStep (m : List (String × PostIt)) (p : PostIt) :
    reducerMergeStep m p = GoogleDriveService.mergeStep m p := by
  simp only [reducerMergeStep, GoogleDriveService.mergeStep]
  cases h : lookupA m p.id with
  | none => simp
  | some ex => by_cases hu : ex.updatedAt < p.updatedAt <;> simp [hu]

/-- C10: the reducer's MERGE_POSTITS merge of incoming notes into the
existing state computes exactly the Drive service's
mergePostIts(incoming, state.postIts) — the same collection, note for note
and in the same order (hence also as sets keyed by id, each keeping its
seed collection's note on equal timestamps). -/
theorem reducer_merge_eq_service_merge_c10 (now : Nat) (s : PostItState)
    (incoming : List PostIt) :
    (postItReducer now s (PostItAction.mergePostIts incoming)).postIts =
      GoogleDriveService.mergePostIts incoming s.postIts := by
  have hstep : reducerMergeStep = GoogleDriveService.mergeStep :=
    funext fun m => funext fun p => reducerMergeStep_eq_mergeStep m p
  simp only [postItReducer, GoogleDriveService.mergePostIts, hstep]

/-! ## Claim C2: the tracked maxZIndex -/

theorem foldlMax_le_iff : ∀ (l : List PostIt) (acc M : Nat),
    l.foldl (fun m p => max m p.zIndex) acc ≤ M ↔
      acc ≤ M ∧ ∀ p ∈ l, p.zIndex ≤ M
  | [], acc, M => by simp
  | x :: rest, acc, M => by
      simp only [List.foldl_cons, foldlMax_le_iff rest, Nat.max_le,
        List.mem_cons]
      constructor
      · rintro ⟨⟨h1, h2⟩, h3⟩
        exact ⟨h1, fun p hp => hp.elim (fun he => he ▸ h2) (h3 p)⟩
      · rintro ⟨h1, h2⟩
        exact ⟨⟨h1, h2 x (Or.inl rfl)⟩, fun p hp => h2 p (Or.inr hp)⟩

theorem trueMaxZ_le_iff (l : List PostIt) (M : Nat) :
    trueMaxZ l ≤ M ↔ ∀ p ∈ l, p.zIndex ≤ M := by
  simp [trueMaxZ, foldlMax_le_iff]

theorem zIndex_le_trueMaxZ {l : List PostIt} {p : PostIt} (hp : p ∈ l) :
    p.zIndex ≤ trueMaxZ l :=
  (trueMaxZ_le_iff l (trueMaxZ l)).mp (Nat.le_refl _) p hp

theorem trueMaxZ_bump (l : List PostIt) (i : String) (now M : Nat)
    (hub : ∀ p ∈ l, p.zIndex ≤ M) (hmem : i ∈ l.map fun p => p.id) :
    trueMaxZ (l.map fun p =>
      if p.id = i then { p with zIndex := M + 1, updatedAt := now } else p) =
      M + 1 := by
  obtain ⟨p0, hp0, hp0id⟩ := List.mem_map.mp hmem
  refine Nat.le_antisymm ?_ ?_
  · refine (trueMaxZ_le_iff _ _).mpr fun p hp => ?_
    obtain ⟨p', hp', hpe⟩ := List.mem_map.mp hp
    by_cases hid : p'.id = i
    · simp [← hpe, hid]
    · simp only [← hpe, if_neg hid]
      exact Nat.le_succ_of_le (hub p' hp')
  · have hmm : (if p0.id = i then { p0 with zIndex := M + 1, updatedAt := now }
        else p0) ∈ l.map (fun p =>
          if p.id = i then { p with zIndex := M + 1, updatedAt := now } else p) :=
      List.mem_map.mpr ⟨p0, hp0, rfl⟩
    have hin := zIndex_le_trueMaxZ hmm
    rw [if_pos hp0id] at hin
    simpa using hin

theorem trueMaxZ_append_single (l : List PostIt) (p : PostIt) :
    trueMaxZ (l ++ [p]) = max (trueMaxZ l) p.zIndex := by
  simp [trueMaxZ, List.foldl_append]

theorem trueMaxZ_map_of_zIndex_eq (l : List PostIt) (f : PostIt → PostIt)
    (hf : ∀ p, (f p).zIndex = p.zIndex) : trueMaxZ (l.map f) = trueMaxZ l := by
  suffices h : ∀ acc, (l.map f).foldl (fun m p => max m p.zIndex) acc =
      l.foldl (fun m p => max m p.zIndex) acc from h 0
  induction l with
  | nil => intro acc; rfl
  | cons x rest ih =>
      intro acc
      simp only [List.map_cons, List.foldl_cons, hf, ih]

/-- C2 counterexample: in a state satisfying the invariant, DELETE_POSTIT
of the topmost note leaves maxZIndex at 2 while the true maximum drops
to 1. -/
theorem reducer_maxZ_c2_counterexample :
    maxZInvariant
      { postIts := [mkNote "a" 0 1, mkNote "b" 0 2]
        selectedId := none
        maxZIndex := 2 } ∧
    ¬ maxZInvariant (postItReducer 0
      { postIts := [mkNote "a" 0 1, mkNote "b" 0 2]
        selectedId := none
        maxZIndex := 2 }
      (PostItAction.deletePostIt "b")) := by
  refine ⟨by decide, by decide⟩

/-- C2 (amended): after LOAD_POSTITS and MERGE_POSTITS the state's
maxZIndex always equals the true maximum of zIndex over all notes (0 for
the empty collection), since both recompute it; ADD_POSTIT preserves the
invariant when the added note's zIndex is at least the current tracked
maximum (as the provider guarantees by allocating maxZIndex + 1);
BRING_TO_FRONT preserves it when its target id is present;
UPDATE_POSITION, UPDATE_SIZE, UPDATE_COLOR and UPDATE_TEXT always
preserve it. DELETE_POSTIT and UPDATE_POSTIT do not maintain the
invariant. -/
theorem reducer_maxZ_invariant_c2 (now : Nat) (s : PostItState)
    (a : PostItAction) (h : preservesMaxZ s a) :
    maxZInvariant (postItReducer now s a) := by
  cases a with
  | loadPostIts payload =>
      simp [postItReducer, maxZInvariant, trueMaxZ]
  | mergePostIts payload =>
      simp [postItReducer, maxZInvariant, trueMaxZ]
  | addPostIt p =>
      obtain ⟨hinv, hle⟩ := h
      simp only [postItReducer, maxZInvariant] at hinv ⊢
      rw [trueMaxZ_append_single, ← hinv]
      exact (Nat.max_eq_right hle).symm
  | updatePostIt p => exact absurd h (by simp [preservesMaxZ])
  | deletePostIt i => exact absurd h (by simp [preservesMaxZ])
  | selectPostIt i => exact absurd h (by simp [preservesMaxZ])
  | setMaxZIndex n => exact absurd h (by simp [preservesMaxZ])
  | updatePosition i pos =>
      simp only [postItReducer, maxZInvariant] at h ⊢
      rw [trueMaxZ_map_of_zIndex_eq _ _ ?_, ← h]
      intro p
      by_cases hp : p.id = i <;> simp [hp]
  | updateSize i size =>
      simp only [postItReducer, maxZInvariant] at h ⊢
      rw [trueMaxZ_map_of_zIndex_eq _ _ ?_, ← h]
      intro p
      by_cases hp : p.id = i <;> simp [hp]
  | updateColor i color =>
      simp only [postItReducer, maxZInvariant] at h ⊢
      rw [trueMaxZ_map_of_zIndex_eq _ _ ?_, ← h]
      intro p
      by_cases hp : p.id = i <;> simp [hp]
  | updateText i text =>
      simp only [postItReducer, maxZInvariant] at h ⊢
      rw [trueMaxZ_map_of_zIndex_eq _ _ ?_, ← h]
      intro p
      by_cases hp : p.id = i <;> simp [hp]
  | bringToFront i =>
      obtain ⟨hinv, hmem⟩ := h
      simp only [maxZInvariant] at hinv
      simp only [postItReducer, maxZInvariant]
      refine (trueMaxZ_bump s.postIts i now s.maxZIndex ?_ hmem).symm
      intro p hp
      exact hinv ▸ zIndex_le_trueMaxZ hp

/-- C2 (amended) witness: adding a note above the current maximum to a
one-note collection. -/
theorem reducer_maxZ_invariant_c2_witness :
    preservesMaxZ
      { postIts := [mkNote "a" 0 1], selectedId := none, maxZIndex := 1 }
      (PostItAction.addPostIt (mkNote "b" 0 2)) ∧
    maxZInvariant (postItReducer 0
      { postIts := [mkNote "a" 0 1], selectedId := none, maxZIndex := 1 }
      (PostItAction.addPostIt (mkNote "b" 0 2))) :=
  ⟨⟨by decide, by decide⟩,
    reducer_maxZ_invariant_c2 0
      { postIts := [mkNote "a" 0 1], selectedId := none, maxZIndex := 1 }
      (PostItAction.addPostIt (mkNote "b" 0 2)) ⟨by decide, by decide⟩⟩

/-! ## Claim C3: sync against a fresh remote -/

/-- C3 counterexample: with no remote snapshot and a succeeding upload, the
returned result carries no conflicts-resolved count at all — the field is
absent, not 0 — so the claim as stated fails at this input. -/
theorem sync_initial_c3_counterexample :
    ¬ ((GoogleDriveService.syncPostIts [mkNote "a" 1 1] none
          (Except.ok false) 5).result.success = true ∧
        (GoogleDriveService.syncPostIts [mkNote "a" 1 1] none
          (Except.ok false) 5).result.postIts = some [mkNote "a" 1 1] ∧
        (GoogleDriveService.syncPostIts [mkNote "a" 1 1] none
          (Except.ok false) 5).result.conflictsResolved = some 0) := by
  decide

/-- C3 (amended): for every local note list L, when the remote download
yields no snapshot and the subsequent upload succeeds, syncPostIts uploads
L verbatim as the initial backup and returns success=true with the note
list equal to L unchanged — but it reports no conflicts-resolved count at
all (the optional field is absent rather than an explicit 0). -/
theorem sync_initial_c3 (L : List PostIt) (existingFile : Bool) (now : Nat) :
    (GoogleDriveService.syncPostIts L none
      (Except.ok existingFile) now).result.success = true ∧
    (GoogleDriveService.syncPostIts L none
      (Except.ok existingFile) now).result.postIts = some L ∧
    (GoogleDriveService.syncPostIts L none
      (Except.ok existingFile) now).uploaded = L ∧
    (GoogleDriveService.syncPostIts L none
      (Except.ok existingFile) now).result.conflictsResolved = none := by
  simp [GoogleDriveService.syncPostIts, GoogleDriveService.uploadBackup]

/-! ## Claim C4: download swallows failures -/

/-- C4 counterexample: a run in which the backup file exists but the
content fetch fails with a transport error returns absent — the
fresh-remote-state result — instead of failing, contradicting the claim
that a failure is never silently converted into absent. -/
theorem download_c4_counterexample :
    GoogleDriveService.downloadBackup (Except.ok "folder1")
      (Except.ok (some mkFileMeta))
      (Except.error "Failed to download backup") = none := rfl

/-- C4 (amended): downloadBackup returns absent not only when no backup
file exists but whenever any step of the run fails — folder resolution,
the file search, or the content fetch. Every failure is silently converted
into the absent (fresh-remote-state) result; the function exposes no error
channel, so callers cannot tell a failed download from a fresh remote. -/
theorem download_c4 (folderOutcome : Except String String)
    (findOutcome : Except String (Option DriveFileMetadata))
    (fetchOutcome : Except String BackupData)
    (h : (∃ e, folderOutcome = Except.error e) ∨
      (∃ e, findOutcome = Except.error e) ∨
      (∃ e, fetchOutcome = Except.error e)) :
    GoogleDriveService.downloadBackup folderOutcome findOutcome fetchOutcome =
      none := by
  rcases h with ⟨e, he⟩ | ⟨e, he⟩ | ⟨e, he⟩ <;> subst he
  · rfl
  · cases folderOutcome <;> rfl
  · cases folderOutcome with
    | error _ => rfl
    | ok _ =>
        cases findOutcome with
        | error _ => rfl
        | ok f => cases f <;> rfl

/-- C4 (amended) witness: a concrete run whose folder resolution throws. -/
theorem download_c4_witness :
    ((∃ e, (Except.error "Failed to search for folder" :
        Except String String) = Except.error e) ∨
      (∃ e, (Except.ok none : Except String (Option DriveFileMetadata)) =
        Except.error e) ∨
      (∃ e, (Except.error "network" : Except String BackupData) =
        Except.error e)) ∧
    GoogleDriveService.downloadBackup
      (Except.error "Failed to search for folder") (Except.ok none)
      (Except.error "network") = none :=
  ⟨Or.inl ⟨"Failed to search for folder", rfl⟩,
    download_c4 _ _ _ (Or.inl ⟨"Failed to search for folder", rfl⟩)⟩

/-! ## Claim C5: the sync guard -/

/-- C5: whenever a sync is already in flight or the connection flag is
false, syncNow returns immediately with success=false and a descriptive
message (sync already in progress when connected, not connected
otherwise), leaves the whole orchestrator state unchanged, and does not
touch the note collection. -/
theorem syncNow_guard_c5 (h : HookState) (postIts : List PostIt)
    (remoteBackup : Option BackupData) (uploadOutcome : Except String Bool)
    (tService tSync : Nat)
    (hguard : h.isSyncing = true ∨ h.syncState.isConnected = false) :
    (syncNow h postIts remoteBackup uploadOutcome tService tSync).result.success
      = false ∧
    (syncNow h postIts remoteBackup uploadOutcome tService tSync).result.message
      = (if h.syncState.isConnected then "Sync already in progress"
        else "Not connected to Google") ∧
    (syncNow h postIts remoteBackup uploadOutcome tService tSync).state = h ∧
    (syncNow h postIts remoteBackup uploadOutcome tService tSync).updatedPostIts
      = none := by
  have hcond : (h.isSyncing || !h.syncState.isConnected) = true := by
    rcases hguard with h1 | h1 <;> simp [h1]
  simp [syncNow, hcond]

/-- C5 witness: a manual sync requested while one is in flight. -/
theorem syncNow_guard_c5_witness :
    (syncingConnectedHook.isSyncing = true ∨
      syncingConnectedHook.syncState.isConnected = false) ∧
    ((syncNow syncingConnectedHook [] none (Except.ok false) 0 7).result.success
        = false ∧
      (syncNow syncingConnectedHook [] none (Except.ok false) 0 7).result.message
        = (if syncingConnectedHook.syncState.isConnected
          then "Sync already in progress" else "Not connected to Google") ∧
      (syncNow syncingConnectedHook [] none (Except.ok false) 0 7).state =
        syncingConnectedHook ∧
      (syncNow syncingConnectedHook [] none
        (Except.ok false) 0 7).updatedPostIts = none) :=
  ⟨Or.inl rfl,
    syncNow_guard_c5 syncingConnectedHook [] none (Except.ok false) 0 7
      (Or.inl rfl)⟩

/-! ## Claim C6: completion transitions -/

/-- C6: for every non-guarded sync invocation, a successful underlying
syncPostIts result moves the orchestrator to Success and sets lastSyncAt
to the completion timestamp, while a failing one moves it to Error and
leaves lastSyncAt exactly equal to its prior value. -/
theorem syncNow_completion_c6 (h : HookState) (postIts : List PostIt)
    (remoteBackup : Option BackupData) (uploadOutcome : Except String Bool)
    (tService tSync : Nat)
    (hfree : h.isSyncing = false) (hconn : h.syncState.isConnected = true) :
    ((syncNow h postIts remoteBackup uploadOutcome tService tSync).result.success
        = true →
      (syncNow h postIts remoteBackup uploadOutcome tService tSync).state.syncState.status
          = SyncStatus.success ∧
        (syncNow h postIts remoteBackup uploadOutcome tService tSync).state.syncState.lastSyncAt
          = some tSync) ∧
    ((syncNow h postIts remoteBackup uploadOutcome tService tSync).result.success
        = false →
      (syncNow h postIts remoteBackup uploadOutcome tService tSync).state.syncState.status
          = SyncStatus.error ∧
        (syncNow h postIts remoteBackup uploadOutcome tService tSync).state.syncState.lastSyncAt
          = h.syncState.lastSyncAt) := by
  have hcond : (h.isSyncing || !h.syncState.isConnected) = false := by
    simp [hfree, hconn]
  constructor
  · intro hs
    simp only [syncNow, hcond, Bool.false_eq_true, if_false] at hs ⊢
    simp [hs]
  · intro hs
    simp only [syncNow, hcond, Bool.false_eq_true, if_false] at hs ⊢
    simp [hs]

/-- C6 witness: a fresh-remote sync whose upload succeeds, from a
connected idle state. -/
theorem syncNow_completion_c6_witness :
    (idleConnectedHook.isSyncing = false ∧
      idleConnectedHook.syncState.isConnected = true) ∧
    (((syncNow idleConnectedHook [] none (Except.ok false) 0 7).result.success
          = true →
        (syncNow idleConnectedHook [] none
            (Except.ok false) 0 7).state.syncState.status = SyncStatus.success ∧
          (syncNow idleConnectedHook [] none
            (Except.ok false) 0 7).state.syncState.lastSyncAt = some 7) ∧
      ((syncNow idleConnectedHook [] none (Except.ok false) 0 7).result.success
          = false →
        (syncNow idleConnectedHook [] none
            (Except.ok false) 0 7).state.syncState.status = SyncStatus.error ∧
          (syncNow idleConnectedHook [] none
            (Except.ok false) 0 7).state.syncState.lastSyncAt =
            idleConnectedHook.syncState.lastSyncAt)) :=
  ⟨⟨rfl, rfl⟩,
    syncNow_completion_c6 idleConnectedHook [] none (Except.ok false) 0 7
      rfl rfl⟩

/-! ## Claim C9: note creation -/

/-- C9: createPostIt stamps createdAt equal to updatedAt, uses exactly the
id the generator produced (so two calls with distinct generated ids yield
notes with distinct ids), and uses the given size when present and the
default from POST_IT_DIMENSIONS — 150 by 150 — when absent. -/
theorem createPostIt_c9 (text : String) (color : PostItColor)
    (position : PostItPosition) (zIndex : Nat) (size : Option PostItSize)
    (id : String) (now : Nat) (text2 : String) (color2 : PostItColor)
    (position2 : PostItPosition) (zIndex2 : Nat) (size2 : Option PostItSize)
    (id2 : String) (now2 : Nat) (hid : ¬ id = id2) :
    (createPostIt text color position zIndex size id now).createdAt =
      (createPostIt text color position zIndex size id now).updatedAt ∧
    (createPostIt text color position zIndex size id now).id = id ∧
    (createPostIt text color position zIndex size id now).id ≠
      (createPostIt text2 color2 position2 zIndex2 size2 id2 now2).id ∧
    (createPostIt text color position zIndex size id now).size =
      (match size with
        | some s => s
        | none => { width := 150, height := 150 }) ∧
    POST_IT_DIMENSIONS.defaultWidth = 150 ∧
    POST_IT_DIMENSIONS.defaultHeight = 150 := by
  refine ⟨rfl, rfl, hid, ?_, rfl, rfl⟩
  cases size <;> rfl

/-- C9 witness: two creations with distinct generated ids, one with an
explicit size and the comparison call without. -/
theorem createPostIt_c9_witness :
    (¬ "id1" = "id2") ∧
    ((createPostIt "hello" PostItColor.blue { x := 3, y := 4 } 2
        (some { width := 200, height := 250 }) "id1" 99).createdAt =
      (createPostIt "hello" PostItColor.blue { x := 3, y := 4 } 2
        (some { width := 200, height := 250 }) "id1" 99).updatedAt ∧
    (createPostIt "hello" PostItColor.blue { x := 3, y := 4 } 2
        (some { width := 200, height := 250 }) "id1" 99).id = "id1" ∧
    (createPostIt "hello" PostItColor.blue { x := 3, y := 4 } 2
        (some { width := 200, height := 250 }) "id1" 99).id ≠
      (createPostIt "bye" PostItColor.green { x := 0, y := 0 } 5 none
        "id2" 100).id ∧
    (createPostIt "hello" PostItColor.blue { x := 3, y := 4 } 2
        (some { width := 200, height := 250 }) "id1" 99).size =
      (match (some { width := 200, height := 250 } : Option PostItSize) with
        | some s => s
        | none => { width := 150, height := 150 }) ∧
    POST_IT_DIMENSIONS.defaultWidth = 150 ∧
    POST_IT_DIMENSIONS.defaultHeight = 150) :=
  ⟨by decide,
    createPostIt_c9 "hello" PostItColor.blue { x := 3, y := 4 } 2
      (some { width := 200, height := 250 }) "id1" 99 "bye" PostItColor.green
      { x := 0, y := 0 } 5 none "id2" 100 (by decide)⟩

